import Mathlib

/-!
# Verification of the CAT_Vehicle adversarial-robustness pipeline

Shallow embedding of the Python sources:

* `src/AndrewNet/test.py` — the regime-A evaluation driver (`test_regime_a`),
* `src/AndrewNet/andrewnet.py` — the CLI entry point and training driver,
* `src/shadows_model/model.py` — the base classifier (`GtsrbCNN`), image
  transformation (`transform_image`) and augmentation (`gen_extra_data`).

Machine reals that the code manipulates exactly as laws of arithmetic are
modelled over `ℚ`; randomness sources (`np.random.uniform`, per-copy image
transforms, the shuffled index array) are modelled as explicit parameters;
side effects (model construction, dataset reads, report writes) are modelled
as explicit event traces.
-/

/-! ## Rounding (Python `round(x, 4)`)

Python `round` performs round-half-to-even. `round4` rounds a rational to four
decimal places with that tie rule. -/

/-- Round-half-to-even of a rational to the nearest integer. -/
def roundHalfEven (q : ℚ) : ℤ :=
  if Int.fract q < 1/2 then ⌊q⌋
  else if (1 : ℚ)/2 < Int.fract q then ⌈q⌉
  else if 2 ∣ ⌊q⌋ then ⌊q⌋ else ⌊q⌋ + 1

/-- `round(x, 4)` from `test.py` lines 53-54: round to 4 decimal places. -/
def round4 (q : ℚ) : ℚ := (roundHalfEven (q * 10000) : ℚ) / 10000

/-! ## Brightness and the regime-A evaluation loop (`src/AndrewNet/test.py`)

`brightness` and the attack itself live in `shadow_utils`, which is not part of
this snapshot; they are modelled from the spec.  The loop, the `>= 120` gate,
the accumulation of successes and queries, and the final report formulas are
translated from `test_regime_a` (lines 42-62). -/

/-- Modelled from the spec: `brightness` is imported from `shadow_utils`, which
is missing from this snapshot.  Per the spec (§4.6) it "computes the mean pixel
intensity of the image restricted to the region indicated by the reference mask
image (treating nonzero mask pixels as the region of interest)".  Images and
masks are flattened pixel lists of 0-255 intensities. -/
def brightness (image mask : List ℕ) : ℚ :=
  let sel := ((image.zip mask).filter (fun p => p.2 ≠ 0)).map (fun p => p.1)
  (sel.sum : ℚ) / (sel.length : ℚ)

/-- One test image of the regime-A loop, as `test_regime_a` sees it: the image
pixels, the reference mask pixels of its mask group (`MASK_LIST[mask_type]`,
where `mask_type = judge_mask_type("GTSRB", labels[index])` — both from the
missing `shadow_utils`, so the mask is carried as data), and the outcome
`(success, num_query)` that the black-box `attack` oracle would return for this
image. -/
structure ImageCase where
  image : List ℕ
  mask : List ℕ
  success : ℕ
  numQuery : ℕ
deriving DecidableEq

/-- The `for index in trange(len(images))` loop of `test_regime_a` (lines
44-51), starting at index `idx`: each image whose masked-region brightness is
`>= 120` is attacked, contributing its success flag and query count to the
accumulators; the second component records which indices were attacked.
Accumulation order of the `+=` sums is immaterial by commutativity. -/
def regimeALoop : List ImageCase → ℕ → ℕ × ℕ × List ℕ
  | [], _ => (0, 0, [])
  | c :: rest, idx =>
    let r := regimeALoop rest (idx + 1)
    if 120 ≤ brightness c.image c.mask then
      (c.success + r.1, c.numQuery + r.2.1, idx :: r.2.2)
    else r

/-- Indices of the test images on which the attack is attempted. -/
def attacked_indices (cases : List ImageCase) : List ℕ :=
  (regimeALoop cases 0).2.2

/-- `test_regime_a` lines 53-54: the reported `(robustness, avg_queries)` pair,
`robustness = 1 - round(num_successes / len(images), 4)` and
`avg_queries = round(total_num_query / len(images), 4)`. -/
def test_regime_a_report (cases : List ImageCase) : ℚ × ℚ :=
  let r := regimeALoop cases 0
  (1 - round4 ((r.1 : ℚ) / (cases.length : ℚ)),
   round4 ((r.2.1 : ℚ) / (cases.length : ℚ)))

/-- The test images that pass the brightness gate. -/
def bright_cases (cases : List ImageCase) : List ImageCase :=
  cases.filter (fun c => 120 ≤ brightness c.image c.mask)

/-- Total success count accumulated by the loop, as a direct sum. -/
def num_successes (cases : List ImageCase) : ℕ :=
  ((bright_cases cases).map ImageCase.success).sum

/-- Total query count accumulated by the loop, as a direct sum. -/
def total_num_query (cases : List ImageCase) : ℕ :=
  ((bright_cases cases).map ImageCase.numQuery).sum

/-! ## Rotation angle of `transform_image` (`src/shadows_model/model.py` 100-103)

The code computes `ang_rot = np.random.uniform(ang_range) - ang_range / 2`.
`np.random.uniform` has signature `uniform(low=0.0, high=1.0)`, so the single
positional argument binds `low := ang_range` and leaves `high = 1.0`; the draw
is `low + (high - low) * u` for a uniform quantile `u ∈ [0, 1)`. -/

/-- `np.random.uniform(low, high)` at quantile `u ∈ [0,1)`. -/
def np_random_uniform (low high u : ℚ) : ℚ := low + (high - low) * u

/-- The rotation angle `transform_image` actually computes (line 101):
`np.random.uniform(ang_range) - ang_range / 2`. -/
def ang_rot_code (ang_range u : ℚ) : ℚ :=
  np_random_uniform ang_range 1 u - ang_range / 2

/-- The rotation angle the spec claims: `ang_range * u - ang_range / 2`,
uniform over `[-ang_range/2, ang_range/2]` (the pattern the same function uses
for translation on lines 106-107 and shear on lines 113-114). -/
def ang_rot_claim (ang_range u : ℚ) : ℚ := ang_range * u - ang_range / 2

/-! ## `GtsrbCNN` feature geometry (`src/shadows_model/model.py` 22-74)

Every convolution of the three modules is 5×5, stride 1, padding 2 (spatial
size preserving); each module ends with a 2×2 stride-2 max-pool.  Channel
widths are 32, 64, 128, and `forward` flattens and concatenates the three
branch outputs before `fc1 : Linear(14336, 1024)`. -/

/-- Output spatial extent of a 1-D convolution/pooling window:
`(n + 2*pad - k) / s + 1` (floor division, as in the framework). -/
def conv2dOut (n pad k s : ℕ) : ℕ := (n + 2 * pad - k) / s + 1

/-- Spatial extent after one `GtsrbCNN` module: two 5×5 pad-2 stride-1
convolutions followed by a 2×2 stride-2 max-pool. -/
def moduleSpatial (n : ℕ) : ℕ :=
  conv2dOut (conv2dOut (conv2dOut n 2 5 1) 2 5 1) 0 2 2

/-- Length of the concatenated flattened branch vector consumed by `fc1`,
for an `n × n` 3-channel input: `32·m₁² + 64·m₂² + 128·m₃²` where `mᵢ` is the
spatial extent after module `i`. -/
def gtsrbFlattenLen (n : ℕ) : ℕ :=
  let m1 := moduleSpatial n
  let m2 := moduleSpatial m1
  let m3 := moduleSpatial m2
  32 * m1 * m1 + 64 * m2 * m2 + 128 * m3 * m3

/-! ## CLI dispatch arity for TEST_A (`andrewnet.py` 136-142, `test.py` 23)

Python binds a call with only positional arguments to a signature whose
parameters carry no defaults iff the argument count equals the parameter
count; otherwise the call raises `TypeError`. -/

/-- Positional argument binding: succeeds iff counts match (no defaults, no
varargs in the bound signature). -/
def bindPositional (params args : List String) : Option (List (String × String)) :=
  if params.length = args.length then some (params.zip args) else none

/-- Parameters of `def test_regime_a(testing_dataset, device, filename)`
(`test.py` line 23); none has a default. -/
def test_regime_a_params : List String :=
  ["testing_dataset", "device", "filename"]

/-- Positional arguments of the `TEST_A` dispatch
`test.test_regime_a(args.test_dataset_location, DEVICE, args.proportion,
args.model_to_test)` (`andrewnet.py` lines 140-142). -/
def test_a_dispatch_args : List String :=
  ["args.test_dataset_location", "DEVICE", "args.proportion", "args.model_to_test"]

/-! ### Theorems -/

/-- **C3** (code bug evaluation). At `ang_range = 20` and uniform quantile
`u = 0`, the code's rotation angle is `np.random.uniform(20) - 10 =
(20 + (1 - 20)·0) - 10 = 10`, while the specified angle `20·0 - 10` is `-10`:
the single-argument `np.random.uniform(ang_range)` call binds `low`, it does
not scale a unit draw, so the angle is not sampled from
`[-ang_range/2, ang_range/2]`. -/
theorem transform_image_rotation_angle_failing_input :
    ang_rot_code 20 0 = 10 ∧ ang_rot_claim 20 0 = -10 ∧
      ang_rot_code 20 0 ≠ ang_rot_claim 20 0 := by
  refine ⟨?_, ?_, ?_⟩ <;> norm_num [ang_rot_code, ang_rot_claim, np_random_uniform]

/-- **C4** (counterexample). For a 48×48 input the concatenated flattened
branch vector has length `32·24² + 64·12² + 128·6² = 32256`, not 14336: the
claimed arithmetic `32·(48/2)² + 64·(48/4)² + 128·(48/8)² = 14336` is false. -/
theorem gtsrb_flatten_48_counterexample :
    gtsrbFlattenLen 48 = 32256 ∧ gtsrbFlattenLen 48 ≠ 14336 := by
  constructor <;> decide

/-- Monotonicity of the flattened feature length in the input size. -/
theorem gtsrbFlattenLen_mono {n m : ℕ} (h : n ≤ m) :
    gtsrbFlattenLen n ≤ gtsrbFlattenLen m := by
  have hconv : ∀ {a b : ℕ}, a ≤ b → ∀ p k s, conv2dOut a p k s ≤ conv2dOut b p k s := by
    intro a b hab p k s
    unfold conv2dOut
    exact Nat.add_le_add_right (Nat.div_le_div_right (Nat.sub_le_sub_right
      (Nat.add_le_add_right hab (2 * p)) k)) 1
  have hmod : ∀ {a b : ℕ}, a ≤ b → moduleSpatial a ≤ moduleSpatial b := by
    intro a b hab
    exact hconv (hconv (hconv hab 2 5 1) 2 5 1) 0 2 2
  have h1 := hmod h
  have h2 := hmod h1
  have h3 := hmod h2
  unfold gtsrbFlattenLen
  have t1 : 32 * moduleSpatial n * moduleSpatial n ≤
      32 * moduleSpatial m * moduleSpatial m :=
    Nat.mul_le_mul (Nat.mul_le_mul_left 32 h1) h1
  have t2 : 64 * moduleSpatial (moduleSpatial n) * moduleSpatial (moduleSpatial n) ≤
      64 * moduleSpatial (moduleSpatial m) * moduleSpatial (moduleSpatial m) :=
    Nat.mul_le_mul (Nat.mul_le_mul_left 64 h2) h2
  have t3 := Nat.mul_le_mul (Nat.mul_le_mul_left 128 h3) h3
  exact Nat.add_le_add (Nat.add_le_add t1 t2) t3

/-- **C4** (amended). The concatenated flattened branch vector consumed by
`fc1` has length 14336 exactly when the input spatial size `n` is 32 or 33 —
in particular for a 32×32 3-channel input, where
`32·16² + 64·8² + 128·4² = 14336` — and not for a 48×48 input, which yields
32256. -/
theorem gtsrb_flatten_14336_characterization :
    gtsrbFlattenLen 32 = 14336 ∧ gtsrbFlattenLen 48 = 32256 ∧
      ∀ n : ℕ, gtsrbFlattenLen n = 14336 ↔ (n = 32 ∨ n = 33) := by
  refine ⟨by decide, by decide, fun n => ?_⟩
  rcases Nat.lt_or_ge n 34 with hn | hn
  · have hsmall : ∀ k < 34, gtsrbFlattenLen k = 14336 ↔ (k = 32 ∨ k = 33) := by decide
    exact hsmall n hn
  · have hb : gtsrbFlattenLen 34 ≤ gtsrbFlattenLen n := gtsrbFlattenLen_mono hn
    have h34 : gtsrbFlattenLen 34 = 15392 := by decide
    constructor
    · intro he
      omega
    · intro he
      omega

/-- **C5**. The `TEST_A` dispatch in `main` passes four positional arguments
while `test_regime_a` declares exactly three parameters (none with a default),
so positional binding fails: the call cannot bind its arguments to the
implemented regime-A signature. -/
theorem test_a_dispatch_arity_mismatch :
    test_regime_a_params.length = 3 ∧ test_a_dispatch_args.length = 4 ∧
      bindPositional test_regime_a_params test_a_dispatch_args = none := by
  refine ⟨rfl, rfl, ?_⟩
  simp [bindPositional, test_regime_a_params, test_a_dispatch_args]

/-- The loop's success and query accumulators equal the direct sums over the
bright-enough images, independently of the starting index. -/
theorem regimeALoop_counts (cases : List ImageCase) :
    ∀ idx, (regimeALoop cases idx).1 = num_successes cases ∧
      (regimeALoop cases idx).2.1 = total_num_query cases := by
  induction cases with
  | nil =>
    intro idx
    simp [regimeALoop, num_successes, total_num_query, bright_cases]
  | cons c rest ih =>
    intro idx
    have ih1 := (ih (idx + 1)).1
    have ih2 := (ih (idx + 1)).2
    by_cases hb : 120 ≤ brightness c.image c.mask
    · have hs : num_successes (c :: rest) = c.success + num_successes rest := by
        simp [num_successes, bright_cases, List.filter_cons, hb]
      have hq : total_num_query (c :: rest) = c.numQuery + total_num_query rest := by
        simp [total_num_query, bright_cases, List.filter_cons, hb]
      rw [hs, hq]
      simp only [regimeALoop, if_pos hb]
      exact ⟨by rw [ih1], by rw [ih2]⟩
    · have hs : num_successes (c :: rest) = num_successes rest := by
        simp [num_successes, bright_cases, List.filter_cons, hb]
      have hq : total_num_query (c :: rest) = total_num_query rest := by
        simp [total_num_query, bright_cases, List.filter_cons, hb]
      rw [hs, hq]
      simp only [regimeALoop, if_neg hb]
      exact ⟨ih1, ih2⟩

/-- Membership in the loop's list of attacked indices, for any starting
index: position `i` is attacked iff the image at offset `i - idx` exists and
its masked-region brightness reaches 120. -/
theorem regimeALoop_attacked_mem (cases : List ImageCase) :
    ∀ idx i, i ∈ (regimeALoop cases idx).2.2 ↔
      (idx ≤ i ∧ ∃ c, cases[i - idx]? = some c ∧ 120 ≤ brightness c.image c.mask) := by
  induction cases with
  | nil =>
    intro idx i
    simp [regimeALoop]
  | cons c rest ih =>
    intro idx i
    by_cases hb : 120 ≤ brightness c.image c.mask
    · simp only [regimeALoop, if_pos hb, List.mem_cons]
      constructor
      · rintro (rfl | hmem)
        · exact ⟨le_refl i, c, by simp, hb⟩
        · obtain ⟨h1, c', hc', hb'⟩ := (ih (idx + 1) i).1 hmem
          refine ⟨by omega, c', ?_, hb'⟩
          have hsub : i - idx = (i - (idx + 1)) + 1 := by omega
          rw [hsub]
          simpa using hc'
      · rintro ⟨h1, c', hc', hb'⟩
        rcases Nat.eq_or_lt_of_le h1 with heq | hlt
        · left
          omega
        · right
          refine (ih (idx + 1) i).2 ⟨by omega, c', ?_, hb'⟩
          have hsub : i - idx = (i - (idx + 1)) + 1 := by omega
          rw [hsub] at hc'
          simpa using hc'
    · simp only [regimeALoop, if_neg hb]
      rw [ih (idx + 1) i]
      constructor
      · rintro ⟨h1, c', hc', hb'⟩
        refine ⟨by omega, c', ?_, hb'⟩
        have hsub : i - idx = (i - (idx + 1)) + 1 := by omega
        rw [hsub]
        simpa using hc'
      · rintro ⟨h1, c', hc', hb'⟩
        rcases Nat.eq_or_lt_of_le h1 with heq | hlt
        · exfalso
          have hzero : i - idx = 0 := by omega
          rw [hzero] at hc'
          simp only [List.getElem?_cons_zero, Option.some.injEq] at hc'
          exact hb (hc' ▸ hb')
        · refine ⟨by omega, c', ?_, hb'⟩
          have hsub : i - idx = (i - (idx + 1)) + 1 := by omega
          rw [hsub] at hc'
          simpa using hc'

/-- **C1**. The regime-A report divides the accumulated query count and the
accumulated success count by the full test-set size, rounds to 4 decimal
places, and reports `robustness = 1 - round4(successes/total)` and
`avg_queries = round4(queries/total)`; images below the brightness threshold
contribute zero successes and zero queries (the sums range only over
bright-enough images), and if every test image is below the threshold the
report is exactly `(1.0, 0.0)`. -/
theorem test_regime_a_report_formula (cases : List ImageCase) (h : cases ≠ []) :
    test_regime_a_report cases =
      (1 - round4 ((num_successes cases : ℚ) / (cases.length : ℚ)),
        round4 ((total_num_query cases : ℚ) / (cases.length : ℚ))) ∧
      ((∀ c ∈ cases, brightness c.image c.mask < 120) →
        test_regime_a_report cases = (1, 0)) := by
  have hc := regimeALoop_counts cases 0
  have hrep : test_regime_a_report cases =
      (1 - round4 ((num_successes cases : ℚ) / (cases.length : ℚ)),
        round4 ((total_num_query cases : ℚ) / (cases.length : ℚ))) := by
    simp only [test_regime_a_report]
    rw [hc.1, hc.2]
  refine ⟨hrep, fun hdark => ?_⟩
  have hnil : bright_cases cases = [] := by
    unfold bright_cases
    rw [List.filter_eq_nil_iff]
    intro c hcmem
    simpa using not_le.mpr (hdark c hcmem)
  have hzero : round4 0 = 0 := by
    norm_num [round4, roundHalfEven, Int.fract]
  rw [hrep]
  unfold num_successes total_num_query
  rw [hnil]
  simp [hzero]

/-- **C1** witness: a concrete two-image test set (one image below, one above
the brightness threshold). -/
theorem test_regime_a_report_formula_witness :
    ([⟨[119], [1], 1, 5⟩, ⟨[200], [1], 0, 7⟩] : List ImageCase) ≠ [] ∧
      (test_regime_a_report [⟨[119], [1], 1, 5⟩, ⟨[200], [1], 0, 7⟩] =
        (1 - round4 ((num_successes [⟨[119], [1], 1, 5⟩, ⟨[200], [1], 0, 7⟩] : ℚ) / 2),
          round4 ((total_num_query [⟨[119], [1], 1, 5⟩, ⟨[200], [1], 0, 7⟩] : ℚ) / 2)) ∧
        ((∀ c ∈ ([⟨[119], [1], 1, 5⟩, ⟨[200], [1], 0, 7⟩] : List ImageCase),
            brightness c.image c.mask < 120) →
          test_regime_a_report [⟨[119], [1], 1, 5⟩, ⟨[200], [1], 0, 7⟩] = (1, 0))) :=
  ⟨by decide, test_regime_a_report_formula [⟨[119], [1], 1, 5⟩, ⟨[200], [1], 0, 7⟩] (by decide)⟩

/-- **C6**. In `test_regime_a`, the black-box attack is attempted on test
image `i` if and only if the mean intensity of the image restricted to its
mask group's reference mask region is at least 120. -/
theorem test_regime_a_attack_gate (cases : List ImageCase) (i : ℕ) (c : ImageCase)
    (h : cases[i]? = some c) :
    i ∈ attacked_indices cases ↔ 120 ≤ brightness c.image c.mask := by
  unfold attacked_indices
  rw [regimeALoop_attacked_mem cases 0 i]
  simp only [Nat.zero_le, true_and, Nat.sub_zero]
  constructor
  · rintro ⟨c', hc', hb'⟩
    rw [h] at hc'
    cases hc'
    exact hb'
  · intro hb
    exact ⟨c, h, hb⟩

/-- **C6** witness: an image with masked-region mean intensity exactly 119 is
not attacked, one with exactly 120 is attacked. -/
theorem test_regime_a_attack_gate_witness :
    (([⟨[119], [1], 0, 0⟩, ⟨[120], [1], 1, 3⟩] : List ImageCase)[1]? =
        some ⟨[120], [1], 1, 3⟩) ∧
      (1 ∈ attacked_indices [⟨[119], [1], 0, 0⟩, ⟨[120], [1], 1, 3⟩] ↔
        120 ≤ brightness [120] [1]) ∧
      brightness [119] [1] = 119 ∧ brightness [120] [1] = 120 ∧
      attacked_indices [⟨[119], [1], 0, 0⟩, ⟨[120], [1], 1, 3⟩] = [1] := by
  have hh : ([⟨[119], [1], 0, 0⟩, ⟨[120], [1], 1, 3⟩] : List ImageCase)[1]? =
      some ⟨[120], [1], 1, 3⟩ := by simp
  refine ⟨hh,
    test_regime_a_attack_gate [⟨[119], [1], 0, 0⟩, ⟨[120], [1], 1, 3⟩] 1 ⟨[120], [1], 1, 3⟩ hh,
    by simp [brightness], by simp [brightness], ?_⟩
  have h119 : ¬ ((120 : ℚ) ≤ brightness [119] [1]) := by
    simp [brightness]
    norm_num
  have h120 : (120 : ℚ) ≤ brightness [120] [1] := by
    simp [brightness]
  simp [attacked_indices, regimeALoop, h119, h120]

/-! ## `gen_extra_data` (`src/shadows_model/model.py` 129-161)

The per-copy randomized transform is modelled by an oracle `tf i j img` (the
result of `transform_image` on input image `i`, copy `j`); the shuffled index
array `len_arr` (a `np.random.shuffle`d `np.arange(len(y_arr))`) is likewise a
parameter.  The shuffle step `x_arr[len_arr] = x_arr` is NumPy fancy-index
assignment whose right-hand side aliases the target; NumPy (≥ 1.13) evaluates
it as if the right-hand side were copied first, so position `len_arr[i]` of
the result holds element `i` of the original array (`scatterAssign`). -/

/-- NumPy fancy-index self-assignment `a[len_arr] = a`: with the right-hand
side snapshotted, each pair `(len_arr[i], a[i])` is written in order (later
writes win on duplicate indices); positions outside `len_arr` keep their old
value. -/
def scatterAssign {α : Type} (len_arr : List ℕ) (a : List α) : List α :=
  (len_arr.zip a).foldl (fun b q => b.set q.1 q.2) a

/-- The nested `for i in range(n_train): for i_n in range(n_each)` append loop
of `gen_extra_data` (lines 144-150): entry `(i, j)` of the output is
`body i j`, laid out row-major. -/
def nestedAppend {α : Type} (n_train n_each : ℕ) (body : ℕ → ℕ → α) : List α :=
  (List.range n_train).flatMap (fun i => (List.range n_each).map (body i))

/-- `gen_extra_data(x_train, y_train, n_each, ..., randomize_var)`: builds
`n_each` transformed copies of every training image with replicated labels,
then, when `randomize_var == 1`, performs the fancy-index self-assignments
`x_arr[len_arr] = x_arr` and `y_arr[len_arr] = y_arr` with the shared shuffled
index array.  `dx`/`dy` are the out-of-range defaults of the index oracle
(never reached on well-formed input). -/
def gen_extra_data {I L : Type} (x_train : List I) (y_train : List L)
    (n_each : ℕ) (tf : ℕ → ℕ → I → I) (dx : I) (dy : L)
    (randomize_var : ℕ) (len_arr : List ℕ) : List I × List L :=
  let x_arr := nestedAppend x_train.length n_each (fun i j => tf i j (x_train.getD i dx))
  let y_arr := nestedAppend x_train.length n_each (fun i _ => y_train.getD i dy)
  if randomize_var = 1 then
    (scatterAssign len_arr x_arr, scatterAssign len_arr y_arr)
  else (x_arr, y_arr)

/-- Length of the nested append loop's output. -/
theorem nestedAppend_length {α : Type} (n m : ℕ) (body : ℕ → ℕ → α) :
    (nestedAppend n m body).length = n * m := by
  induction n with
  | zero => simp [nestedAppend]
  | succ k ih =>
    unfold nestedAppend at ih ⊢
    rw [List.range_succ, List.flatMap_append, List.length_append, ih]
    simp [Nat.succ_mul]

/-- Row-major indexing into the nested append loop's output. -/
theorem nestedAppend_getD {α : Type} (m : ℕ) (body : ℕ → ℕ → α) (d : α) :
    ∀ n i j, i < n → j < m → (nestedAppend n m body).getD (i * m + j) d = body i j := by
  intro n
  induction n with
  | zero => intro i j hi _; omega
  | succ k ih =>
    intro i j hi hj
    have hlen : (nestedAppend k m body).length = k * m := nestedAppend_length k m body
    unfold nestedAppend at hlen ih ⊢
    rw [List.range_succ, List.flatMap_append]
    rcases Nat.lt_or_ge i k with hik | hik
    · rw [List.getD_append]
      · exact ih i j hik hj
      · rw [hlen]
        have h1 : i * m + j < i * m + m := by omega
        have h2 : i * m + m = (i + 1) * m := by ring
        have h3 : (i + 1) * m ≤ k * m := Nat.mul_le_mul_right m hik
        omega
    · have hik' : i = k := by omega
      subst hik'
      rw [List.getD_append_right]
      · rw [hlen]
        have hsub : i * m + j - i * m = j := by omega
        rw [hsub]
        simp only [List.flatMap_cons, List.flatMap_nil, List.append_nil]
        rw [List.getD_eq_getElem?_getD, List.getElem?_map]
        simp [List.getElem?_range, hj]
      · rw [hlen]
        omega

/-- Writing a list of (index, value) pairs leaves positions outside the index
set untouched. -/
theorem foldl_set_getD_of_not_mem {α : Type} (l : List (ℕ × α)) (k : ℕ) (d : α) :
    ∀ acc : List α, k ∉ l.map Prod.fst →
      (l.foldl (fun b q => b.set q.1 q.2) acc).getD k d = acc.getD k d := by
  induction l with
  | nil => intro acc _; rfl
  | cons q t ih =>
    intro acc hk
    simp only [List.map_cons, List.mem_cons, not_or] at hk
    rw [List.foldl_cons, ih _ hk.2, List.getD_eq_getElem?_getD,
      List.getD_eq_getElem?_getD, List.getElem?_set_ne (Ne.symm hk.1)]

/-- Writing a list of (index, value) pairs with pairwise-distinct indices puts
each value at its index. -/
theorem foldl_set_getD {α : Type} (l : List (ℕ × α)) (d : α) :
    ∀ acc : List α, (l.map Prod.fst).Nodup →
      ∀ p ∈ l, p.1 < acc.length →
        (l.foldl (fun b q => b.set q.1 q.2) acc).getD p.1 d = p.2 := by
  induction l with
  | nil =>
    intro acc _ p hp _
    cases hp
  | cons q t ih =>
    intro acc hnd p hp hlt
    simp only [List.map_cons, List.nodup_cons] at hnd
    rw [List.foldl_cons]
    rcases List.mem_cons.mp hp with rfl | hpt
    · rw [foldl_set_getD_of_not_mem t p.1 d _ hnd.1, List.getD_eq_getElem?_getD,
        List.getElem?_set_self hlt]
      rfl
    · exact ih (acc.set q.1 q.2) hnd.2 p hpt (by simpa using hlt)

/-- The fancy-index self-assignment genuinely scatters: position `len_arr[i]`
of the result holds element `i` of the original array. -/
theorem scatterAssign_getD {α : Type} (len_arr : List ℕ) (a : List α) (d : α) (i : ℕ)
    (hlen : len_arr.length = a.length) (hnodup : len_arr.Nodup)
    (hbound : ∀ v ∈ len_arr, v < a.length) (hi : i < len_arr.length) :
    (scatterAssign len_arr a).getD (len_arr.getD i 0) d = a.getD i d := by
  have hia : i < a.length := by omega
  have hz : i < (len_arr.zip a).length := by
    rw [List.length_zip]
    omega
  have hg := List.getElem_zip (h := hz)
  have hmem : (len_arr[i], a[i]) ∈ len_arr.zip a := hg ▸ List.getElem_mem hz
  have hfirsts : (len_arr.zip a).map Prod.fst = len_arr :=
    List.map_fst_zip _ _ (le_of_eq hlen)
  have hnd : ((len_arr.zip a).map Prod.fst).Nodup := by
    rw [hfirsts]
    exact hnodup
  have hv : len_arr[i] < a.length := hbound _ (List.getElem_mem hi)
  have hmain := foldl_set_getD (len_arr.zip a) d a hnd (len_arr[i], a[i]) hmem hv
  have h1 : len_arr.getD i 0 = len_arr[i] := List.getD_eq_getElem len_arr 0 hi
  have h2 : a.getD i d = a[i] := List.getD_eq_getElem a d hia
  unfold scatterAssign
  rw [h1, h2]
  exact hmain

/-- **C2** (counterexample). With two input images, one copy each, identity
transforms and shuffled index array `[1, 0]` (a possible
`np.random.shuffle(np.arange(2))`), `gen_extra_data` with `randomize_var = 1`
returns `([1, 0], [20, 10])`, while with `randomize_var ≠ 1` it returns
`([0, 1], [10, 20])`: the self-assignments with a shared shuffled index array
are not no-ops. -/
theorem gen_extra_data_shuffle_noop_counterexample :
    gen_extra_data [0, 1] [10, 20] 1 (fun _ _ img => img) 0 0 1 [1, 0] =
        ([1, 0], [20, 10]) ∧
      gen_extra_data [0, 1] [10, 20] 1 (fun _ _ img => img) 0 0 0 [1, 0] =
        ([0, 1], [10, 20]) ∧
      gen_extra_data [0, 1] [10, 20] 1 (fun _ _ img => img) 0 0 1 [1, 0] ≠
        gen_extra_data [0, 1] [10, 20] 1 (fun _ _ img => img) 0 0 0 [1, 0] := by
  refine ⟨?_, ?_, ?_⟩ <;> decide

/-- **C2** (amended). The self-assignments `x_arr[len_arr] = x_arr` and
`y_arr[len_arr] = y_arr` with the shared shuffled index array are not no-ops:
they scatter both arrays by the same index map, so position `len_arr[i]` of
each returned array holds entry `i` of the array that would be returned with
`randomize_var ≠ 1` — a genuine joint permutation (preserving the image–label
pairing), equal to the unshuffled output only for special index arrays such as
the identity. -/
theorem gen_extra_data_shuffle_scatters {I L : Type} (x_train : List I)
    (y_train : List L) (n_each : ℕ) (tf : ℕ → ℕ → I → I) (dx : I) (dy : L)
    (len_arr : List ℕ) (i : ℕ)
    (hlen : len_arr.length = x_train.length * n_each)
    (hnodup : len_arr.Nodup)
    (hbound : ∀ v ∈ len_arr, v < x_train.length * n_each)
    (hi : i < len_arr.length) :
    ((gen_extra_data x_train y_train n_each tf dx dy 1 len_arr).1).getD
        (len_arr.getD i 0) dx
      = ((gen_extra_data x_train y_train n_each tf dx dy 0 len_arr).1).getD i dx
    ∧ ((gen_extra_data x_train y_train n_each tf dx dy 1 len_arr).2).getD
        (len_arr.getD i 0) dy
      = ((gen_extra_data x_train y_train n_each tf dx dy 0 len_arr).2).getD i dy := by
  have hx : (nestedAppend x_train.length n_each
      (fun i j => tf i j (x_train.getD i dx))).length = x_train.length * n_each :=
    nestedAppend_length _ _ _
  have hy : (nestedAppend x_train.length n_each
      (fun i _ => y_train.getD i dy)).length = x_train.length * n_each :=
    nestedAppend_length _ _ _
  simp only [gen_extra_data, reduceIte]
  constructor
  · exact scatterAssign_getD len_arr _ dx i (by rw [hx]; exact hlen) hnodup
      (fun v hv => by rw [hx]; exact hbound v hv) hi
  · exact scatterAssign_getD len_arr _ dy i (by rw [hy]; exact hlen) hnodup
      (fun v hv => by rw [hy]; exact hbound v hv) hi

/-- **C2** witness for the amended theorem: the concrete instance of the
counterexample, where the scatter relation is visible position by position. -/
theorem gen_extra_data_shuffle_scatters_witness :
    (([1, 0] : List ℕ).length = ([0, 1] : List ℕ).length * 1 ∧
        ([1, 0] : List ℕ).Nodup ∧
        (∀ v ∈ ([1, 0] : List ℕ), v < ([0, 1] : List ℕ).length * 1) ∧
        (0 : ℕ) < ([1, 0] : List ℕ).length) ∧
      (((gen_extra_data [0, 1] [10, 20] 1 (fun _ _ img => img) 0 0 1 [1, 0]).1).getD
          (([1, 0] : List ℕ).getD 0 0) 0
        = ((gen_extra_data [0, 1] [10, 20] 1 (fun _ _ img => img) 0 0 0 [1, 0]).1).getD 0 0
      ∧ ((gen_extra_data [0, 1] [10, 20] 1 (fun _ _ img => img) 0 0 1 [1, 0]).2).getD
          (([1, 0] : List ℕ).getD 0 0) 0
        = ((gen_extra_data [0, 1] [10, 20] 1 (fun _ _ img => img) 0 0 0 [1, 0]).2).getD 0 0) :=
  ⟨⟨by decide, by decide, by decide, by decide⟩,
    gen_extra_data_shuffle_scatters [0, 1] [10, 20] 1 (fun _ _ img => img) 0 0 [1, 0] 0
      (by decide) (by decide) (by decide) (by decide)⟩

/-- **C7**. Absent shuffling (`randomize_var ≠ 1`), `gen_extra_data` returns
exactly `n_train * n_each` images and as many labels; the output at row-major
index `i * n_each + j` is the `j`-th transformed copy of input image `i` and
carries label `y_train[i]`, so each label is replicated `n_each` times in input
order. -/
theorem gen_extra_data_cardinality {I L : Type} (x_train : List I)
    (y_train : List L) (n_each : ℕ) (tf : ℕ → ℕ → I → I) (dx : I) (dy : L)
    (randomize_var : ℕ) (len_arr : List ℕ) (i j : ℕ)
    (hrv : randomize_var ≠ 1) (hi : i < x_train.length) (hj : j < n_each) :
    (gen_extra_data x_train y_train n_each tf dx dy randomize_var len_arr).1.length
        = x_train.length * n_each
      ∧ (gen_extra_data x_train y_train n_each tf dx dy randomize_var len_arr).2.length
        = x_train.length * n_each
      ∧ (gen_extra_data x_train y_train n_each tf dx dy randomize_var len_arr).1.getD
          (i * n_each + j) dx = tf i j (x_train.getD i dx)
      ∧ (gen_extra_data x_train y_train n_each tf dx dy randomize_var len_arr).2.getD
          (i * n_each + j) dy = y_train.getD i dy := by
  simp only [gen_extra_data, if_neg hrv]
  exact ⟨nestedAppend_length _ _ _, nestedAppend_length _ _ _,
    nestedAppend_getD n_each _ dx x_train.length i j hi hj,
    nestedAppend_getD n_each _ dy x_train.length i j hi hj⟩

/-- **C7** witness: two input images, two copies each, with a distinguishable
transform oracle. -/
theorem gen_extra_data_cardinality_witness :
    ((0 : ℕ) ≠ 1 ∧ (1 : ℕ) < ([5, 9] : List ℕ).length ∧ (1 : ℕ) < 2) ∧
      ((gen_extra_data [5, 9] [3, 4] 2 (fun i j img => 100 * i + 10 * j + img) 0 0 0 []).1.length
          = ([5, 9] : List ℕ).length * 2
        ∧ (gen_extra_data [5, 9] [3, 4] 2 (fun i j img => 100 * i + 10 * j + img) 0 0 0 []).2.length
          = ([5, 9] : List ℕ).length * 2
        ∧ (gen_extra_data [5, 9] [3, 4] 2 (fun i j img => 100 * i + 10 * j + img) 0 0 0 []).1.getD
            (1 * 2 + 1) 0 = 100 * 1 + 10 * 1 + ([5, 9] : List ℕ).getD 1 0
        ∧ (gen_extra_data [5, 9] [3, 4] 2 (fun i j img => 100 * i + 10 * j + img) 0 0 0 []).2.getD
            (1 * 2 + 1) 0 = ([3, 4] : List ℕ).getD 1 0) :=
  ⟨⟨by decide, by decide, by decide⟩,
    gen_extra_data_cardinality [5, 9] [3, 4] 2 (fun i j img => 100 * i + 10 * j + img) 0 0 0 []
      1 1 (by decide) (by decide) (by decide)⟩

/-! ## Checkpoint resolution and regime-A side effects (`test.py` 23-62) -/

/-- Python `sorted()` over the directory listing: ascending lexicographic
string sort. -/
def sorted_listing (listing : List String) : List String :=
  List.insertionSort (· ≤ ·) listing

/-- Lines 25-27 of `test.py`: when `filename` is falsy (`None` — the CLI
default — or the empty string), the checkpoint name is
`sorted(listdir("./checkpoints/"))[-1]`.  Python `files[-1]` is the last
element of the listing and raises `IndexError` on an empty list, modelled by
`none`. -/
def resolve_checkpoint (filename : Option String) (listing : List String) :
    Option String :=
  if filename.getD "" = "" then (sorted_listing listing).getLast? else filename

/-- Line 61 of `test.py`: the results-file path embeds the checkpoint name
minus its first 6 characters (`filename[6:]`). -/
def results_path (filename : String) : String :=
  "./testing_results/results_" ++ (filename.drop 6) ++ ".json"

/-- The observable side effects of `test_regime_a`, in program order. -/
inductive RegimeAEvent where
  | constructModel (checkpointPath : String)
  | readTestSet (path : String)
  | writeResults (path : String)
deriving DecidableEq

/-- Side-effect trace of `test_regime_a(testing_dataset, device, filename)`:
checkpoint resolution (lines 25-27) runs first, and if it raises — empty
listing — nothing else happens.  Otherwise the model is constructed and the
checkpoint loaded with `torch.load(filename)`, i.e. from the resolved name
as-is (lines 28-35), the pickled test set is read (line 38), and the report is
written to the results path (lines 61-62). -/
def test_regime_a_events (filename : Option String) (listing : List String)
    (testing_dataset : String) : List RegimeAEvent :=
  match resolve_checkpoint filename listing with
  | none => []
  | some f =>
    [RegimeAEvent.constructModel f, RegimeAEvent.readTestSet testing_dataset,
      RegimeAEvent.writeResults (results_path f)]

/-- In a `≤`-sorted string list, every member is bounded by the last
element. -/
theorem le_getLast?_of_sorted (l : List String) (hs : List.Sorted (· ≤ ·) l) :
    ∀ x ∈ l, ∃ m, l.getLast? = some m ∧ x ≤ m := by
  induction l with
  | nil =>
    intro x hx
    cases hx
  | cons a t ih =>
    intro x hx
    have hs' := List.sorted_cons.mp hs
    rcases List.mem_cons.mp hx with rfl | hxt
    · cases t with
      | nil => exact ⟨x, rfl, le_refl x⟩
      | cons b t' =>
        obtain ⟨m, hm, hbm⟩ := ih hs'.2 b (List.mem_cons_self b t')
        exact ⟨m, hm, le_trans (hs'.1 b (List.mem_cons_self b t')) hbm⟩
    · obtain ⟨m, hm, hxm⟩ := ih hs'.2 x hxt
      cases t with
      | nil => cases hxt
      | cons b t' => exact ⟨m, hm, hxm⟩

/-- **C8**. With no explicit model filename, the checkpoint resolves to the
last element of the sorted listing of `./checkpoints/` — the lexicographically
greatest entry; on an empty listing the resolution fails (`files[-1]` is an
out-of-range index) and the side-effect trace is empty: the model is never
constructed, the test set never read, and no report written. -/
theorem resolve_checkpoint_latest_or_fatal (filename : Option String)
    (listing : List String) (testing_dataset : String)
    (hfn : filename.getD "" = "") :
    (listing = [] → resolve_checkpoint filename listing = none ∧
        test_regime_a_events filename listing testing_dataset = []) ∧
      (listing ≠ [] → ∃ f, resolve_checkpoint filename listing = some f ∧
        f ∈ listing ∧ ∀ x ∈ listing, x ≤ f) := by
  constructor
  · rintro rfl
    have hnone : resolve_checkpoint filename [] = none := by
      simp [resolve_checkpoint, hfn, sorted_listing]
    exact ⟨hnone, by simp [test_regime_a_events, hnone]⟩
  · intro hne
    have hperm : List.Perm (sorted_listing listing) listing :=
      List.perm_insertionSort (· ≤ ·) listing
    have hsne : sorted_listing listing ≠ [] := by
      intro h0
      exact hne (List.Perm.eq_nil (h0 ▸ hperm.symm))
    obtain ⟨m, hm⟩ := Option.isSome_iff_exists.mp (List.getLast?_isSome.mpr hsne)
    have hsorted : List.Sorted (· ≤ ·) (sorted_listing listing) :=
      List.sorted_insertionSort (· ≤ ·) listing
    refine ⟨m, ?_, ?_, ?_⟩
    · simp [resolve_checkpoint, hfn, hm]
    · exact hperm.mem_iff.mp (List.mem_of_mem_getLast? hm)
    · intro x hx
      obtain ⟨m', hm', hxm'⟩ :=
        le_getLast?_of_sorted (sorted_listing listing) hsorted x (hperm.mem_iff.mpr hx)
      rw [hm] at hm'
      cases hm'
      exact hxm'

/-- **C8** witness: no explicit filename and a one-entry listing resolve to
that entry; the resolution hypothesis (falsy filename) is discharged at the
CLI default `None`. -/
theorem resolve_checkpoint_latest_or_fatal_witness :
    ((none : Option String).getD "" = "") ∧
      ((["model_a.pth"] = ([] : List String) →
          resolve_checkpoint none ["model_a.pth"] = none ∧
          test_regime_a_events none ["model_a.pth"] "./dataset/GTSRB/test.pkl" = []) ∧
        (["model_a.pth"] ≠ ([] : List String) →
          ∃ f, resolve_checkpoint none ["model_a.pth"] = some f ∧
            f ∈ ["model_a.pth"] ∧ ∀ x ∈ ["model_a.pth"], x ≤ f)) :=
  ⟨rfl, resolve_checkpoint_latest_or_fatal none ["model_a.pth"]
    "./dataset/GTSRB/test.pkl" rfl⟩

/-- Character-level check that one character list starts with another. -/
def leadsWith : List Char → List Char → Bool
  | [], _ => true
  | _ :: _, [] => false
  | a :: as, b :: bs => a = b && leadsWith as bs

/-- Every character of a matched leading pattern occurs in the string. -/
theorem mem_of_leadsWith :
    ∀ p s : List Char, leadsWith p s = true → ∀ c ∈ p, c ∈ s := by
  intro p
  induction p with
  | nil =>
    intro s _ c hc
    cases hc
  | cons a as ih =>
    intro s h c hc
    cases s with
    | nil => simp [leadsWith] at h
    | cons b bs =>
      simp only [leadsWith, Bool.and_eq_true, decide_eq_true_eq] at h
      rcases List.mem_cons.mp hc with rfl | hcs
      · rw [h.1]
        exact List.mem_cons_self b bs
      · exact List.mem_cons_of_mem b (ih bs h.2 c hcs)

/-- **C10**. When the checkpoint is resolved from the directory listing, the
resolved name `f` is a bare listing entry (no `/` in it, hence not under the
`./checkpoints/` directory path), and exactly that bare string is passed to
the loader and embedded, minus its first 6 characters, in the results-file
name: the checkpoint is loaded relative to the current working directory, not
from inside `./checkpoints/`. -/
theorem implicit_checkpoint_load_path (filename : Option String)
    (listing : List String) (testing_dataset : String) (f : String)
    (hfn : filename.getD "" = "")
    (hres : resolve_checkpoint filename listing = some f)
    (hbare : ∀ e ∈ listing, ('/' : Char) ∉ e.toList) :
    f ∈ listing ∧
      leadsWith "./checkpoints/".toList f.toList = false ∧
      test_regime_a_events filename listing testing_dataset =
        [RegimeAEvent.constructModel f, RegimeAEvent.readTestSet testing_dataset,
          RegimeAEvent.writeResults
            ("./testing_results/results_" ++ f.drop 6 ++ ".json")] := by
  have hmem : f ∈ listing := by
    have hperm : List.Perm (sorted_listing listing) listing :=
      List.perm_insertionSort (· ≤ ·) listing
    have hlast : (sorted_listing listing).getLast? = some f := by
      by_cases hc : filename.getD "" = ""
      · simpa [resolve_checkpoint, hc] using hres
      · exact absurd hfn hc
    exact hperm.mem_iff.mp (List.mem_of_mem_getLast? hlast)
  refine ⟨hmem, ?_, ?_⟩
  · by_contra hlead
    have htrue : leadsWith "./checkpoints/".toList f.toList = true := by
      revert hlead
      cases leadsWith "./checkpoints/".toList f.toList <;> simp
    have hslash : ('/' : Char) ∈ "./checkpoints/".toList := by decide
    exact hbare f hmem (mem_of_leadsWith _ _ htrue '/' hslash)
  · simp [test_regime_a_events, hres, results_path]

/-- **C10** witness: a one-entry listing with a bare checkpoint name. -/
theorem implicit_checkpoint_load_path_witness :
    ((none : Option String).getD "" = "" ∧
        resolve_checkpoint none ["model_x.pth"] = some "model_x.pth" ∧
        (∀ e ∈ ["model_x.pth"], ('/' : Char) ∉ e.toList)) ∧
      ("model_x.pth" ∈ ["model_x.pth"] ∧
        leadsWith "./checkpoints/".toList "model_x.pth".toList = false ∧
        test_regime_a_events none ["model_x.pth"] "./dataset/GTSRB/test.pkl" =
          [RegimeAEvent.constructModel "model_x.pth",
            RegimeAEvent.readTestSet "./dataset/GTSRB/test.pkl",
            RegimeAEvent.writeResults
              ("./testing_results/results_" ++ "model_x.pth".drop 6 ++ ".json")]) :=
  ⟨⟨rfl, rfl, by decide⟩,
    implicit_checkpoint_load_path none ["model_x.pth"] "./dataset/GTSRB/test.pkl"
      "model_x.pth" rfl rfl (by decide)⟩

/-! ## Import-time mask loading (`andrewnet.py` line 3, `test.py` line 20) -/

/-- Observable startup events of an `andrewnet.py` process. -/
inductive StartupEvent where
  | loadMaskCall
  | dispatch (regime : String)
deriving DecidableEq

/-- Top-level body of module `test`: line 20 evaluates
`POSITION_LIST, MASK_LIST = load_mask()` at module scope, so importing the
module calls `load_mask()`. -/
def test_module_events : List StartupEvent := [StartupEvent.loadMaskCall]

/-- `andrewnet.py` startup: line 3 `import test` executes the `test` module
body during process startup; only afterwards does `main()` (lines 136-152)
dispatch on the selected regime.  `maskOk` records whether `load_mask()`
succeeds; an exception during the import aborts the process before any
dispatch. -/
def andrewnet_run (maskOk : Bool) (regime : String) : List StartupEvent :=
  if maskOk then test_module_events ++ [StartupEvent.dispatch regime]
  else test_module_events

/-- **C9**. For every regime — including `TRAIN` — the first startup event is
the `load_mask()` call performed while importing module `test`, before any
regime dispatch; and if `load_mask()` fails, no dispatch happens at all, so a
missing or unreadable mask resource aborts even a pure training run. -/
theorem andrewnet_loads_mask_before_dispatch (maskOk : Bool) (regime : String) :
    (andrewnet_run maskOk regime).head? = some StartupEvent.loadMaskCall ∧
      (maskOk = false →
        StartupEvent.dispatch regime ∉ andrewnet_run maskOk regime) := by
  cases maskOk <;> simp [andrewnet_run, test_module_events]

/-- **C9** witness: a failed mask load with the `TRAIN` regime. -/
theorem andrewnet_loads_mask_before_dispatch_witness :
    ((andrewnet_run false "TRAIN").head? = some StartupEvent.loadMaskCall ∧
      (false = false →
        StartupEvent.dispatch "TRAIN" ∉ andrewnet_run false "TRAIN")) :=
  andrewnet_loads_mask_before_dispatch false "TRAIN"
